import Mathlib

/-!
Shallow embedding of src/NCGL.py, the Noisy Complex Ginzburg-Landau solver.
Complex cell values are modelled as pairs of exact rationals; the numpy
elementwise array operations of the source are modelled per cell.
-/

/-- A complex grid cell: real and imaginary part, in exact arithmetic. -/
abbrev Cplx : Type := ℚ × ℚ

/-- Complex multiplication on cells. -/
def cmul (z w : Cplx) : Cplx := (z.1 * w.1 - z.2 * w.2, z.1 * w.2 + z.2 * w.1)

/-- Squared modulus of a cell: the exact value of np.abs(a)**2 for complex a. -/
def cabsSq (z : Cplx) : ℚ := z.1 ^ 2 + z.2 ^ 2

/-- reaction (src 147-149): a - (1+1j*c2)*(np.abs(a)**2)*a, per cell; the
time argument is taken and ignored exactly as in the source. -/
def reaction (c2 : ℚ) (a : Cplx) (t : ℚ) : Cplx :=
  a - cmul (cmul (1, c2) (cabsSq a, 0)) a

/-- C5: the reaction term is pure — it equals a − (1 + i·c2)·(|a|²·a) as the
spec writes it, is independent of the time argument, and maps zero amplitude
to zero. -/
theorem C5_reaction_pure (c2 : ℚ) (a : Cplx) (t t' : ℚ) :
    reaction c2 a t = a - cmul ((1, 0) + cmul (0, 1) (c2, 0)) (cmul (cabsSq a, 0) a)
      ∧ reaction c2 a t = reaction c2 a t'
      ∧ reaction c2 (0, 0) t = (0, 0) := by
  refine ⟨?_, rfl, ?_⟩
  · unfold reaction cmul cabsSq
    apply Prod.ext <;> simp <;> ring
  · unfold reaction cmul cabsSq
    apply Prod.ext <;> simp

/-- Per-cell recombination of the spectral Laplacian exactly as src 253
computes it: np.real(ifftn(..)) + 1j*np.real(ifftn(..))/(h**2).  By Python
operator precedence only the imaginary component is divided by h².  lapR and
lapI are the per-cell values of the two np.real(ifftn(..)) arrays. -/
def lapRecombine (lapR lapI h : ℚ) : Cplx := (lapR, lapI / h ^ 2)

/-- The recombination the spec describes: (lap_real + i·lap_imag)/h², with
both components scaled by 1/h². -/
def lapRecombineSpec (lapR lapI h : ℚ) : Cplx := (lapR / h ^ 2, lapI / h ^ 2)

/-- C1 (code bug): at grid spacing h = 2 with inverse-transform cell values
lapR = 1, lapI = 0, the code leaves the real component unscaled (value 1),
while the recombination described by the spec yields 1/4: only the imaginary
component is divided by h². -/
theorem C1_lap_scaling_bug :
    lapRecombine 1 0 2 = (1, 0) ∧ lapRecombineSpec 1 0 2 = (1 / 4, 0)
      ∧ lapRecombine 1 0 2 ≠ lapRecombineSpec 1 0 2 := by
  refine ⟨?_, ?_, ?_⟩ <;> simp [lapRecombine, lapRecombineSpec, Prod.ext_iff] <;> norm_num

/-- SimulationConfig exactly as stored by NCGL.__init__ (src 34-63). -/
structure NCGLConfig where
  c1 : ℚ
  c2 : ℚ
  a0 : ℚ
  h : ℚ
  ic : String
  msize : ℤ
  dim : ℕ
  sigma_r : ℚ
  noiseType : String
  noiseSpeed : ℚ
  noiseBeta : Option ℚ
  noiseStd : Option ℚ

/-- NCGL.__init__ (src 34-63): stores every parameter unconditionally (plus
the constants a0 = 0.01 and dim = 2) and performs no validation; the source
constructor cannot fail, so its embedding is a total function. -/
def NCGLinit (c1 c2 h : ℚ) (msize : ℤ) (ic : String) (sigma_r : ℚ)
    (noiseSpeed : ℚ) (noiseType : String) (noiseBeta noiseStd : Option ℚ) : NCGLConfig :=
  ⟨c1, c2, 1 / 100, h, ic, msize, 2, sigma_r, noiseType, noiseSpeed, noiseBeta, noiseStd⟩

/-- C3 (counterexample): a configuration with msize = −1, an unsupported ic
mode and noiseSpeed = 5 outside (0,1] is accepted and stored without any
error being raised. -/
theorem C3_no_validation_counterexample :
    (NCGLinit 1 1 1 (-1) ("x") 1 5 ("additive") none none).msize = -1
      ∧ (NCGLinit 1 1 1 (-1) ("x") 1 5 ("additive") none none).ic = ("x")
      ∧ (NCGLinit 1 1 1 (-1) ("x") 1 5 ("additive") none none).noiseSpeed = 5 :=
  ⟨rfl, rfl, rfl⟩

/-- C3 (amended): the constructor performs no configuration validation at
all — every parameter combination is stored unconditionally and no error is
raised before generation work. -/
theorem C3_init_stores_unconditionally (c1 c2 h : ℚ) (msize : ℤ) (ic : String)
    (sigma_r noiseSpeed : ℚ) (noiseType : String) (noiseBeta noiseStd : Option ℚ) :
    NCGLinit c1 c2 h msize ic sigma_r noiseSpeed noiseType noiseBeta noiseStd =
      ⟨c1, c2, 1 / 100, h, ic, msize, 2, sigma_r, noiseType, noiseSpeed, noiseBeta, noiseStd⟩ :=
  rfl

/-- Real division as IEEE floating point produces it on finite operands: a
zero denominator yields a non-finite value (±Inf or NaN), encoded as none. -/
def fdiv (x y : ℚ) : Option ℚ := if y = 0 then none else some (x / y)

/-- Noise term of the diffusive branch (src 258), per cell:
sigma_r*lap*tnr2/np.abs(lap).  cabsLap is the cell value of np.abs(lap),
which is 0 exactly when the cell of lap is 0; a none result encodes a
non-finite value. -/
def diffusiveNoiseCell (sigma_r : ℚ) (lap : Cplx) (tnr2 cabsLap : ℚ) : Option Cplx :=
  (fdiv (sigma_r * tnr2) cabsLap).map (fun q => q • lap)

/-- Right-hand side of the diffusive branch of timeDerivatives (src 257-258),
per cell: (1+i·c1)·lap + reaction(state,t) + sigma_r·lap·tnr2/|lap|. -/
def timeDerivDiffusiveCell (c1 c2 sigma_r : ℚ) (state lap : Cplx) (t tnr2 cabsLap : ℚ) :
    Option Cplx :=
  (diffusiveNoiseCell sigma_r lap tnr2 cabsLap).map
    (fun nz => cmul (1, c1) lap + reaction c2 state t + nz)

/-- C4 (counterexample): at a cell where the Laplacian is exactly zero — so
np.abs(lap) is 0 — the diffusive right-hand side is non-finite; no detection,
clamping or error occurs. -/
theorem C4_diffusive_divzero_counterexample :
    timeDerivDiffusiveCell 1 1 1 (0, 0) (0, 0) 0 1 0 = none := by
  decide

/-- C4 (amended): whenever the Laplacian cell magnitude is zero, the
diffusive noise coupling divides by zero and the returned right-hand side
cell is silently non-finite; the branch has no near-zero detection or
clamping. -/
theorem C4_diffusive_divzero (c1 c2 sigma_r : ℚ) (state : Cplx) (t tnr2 : ℚ) :
    timeDerivDiffusiveCell c1 c2 sigma_r state (0, 0) t tnr2 0 = none := by
  simp [timeDerivDiffusiveCell, diffusiveNoiseCell, fdiv]

/-- Frame time stamps np.linspace(0,1,frames) used by interpolateNoise
(src 158): the i-th stamp is i/(frames-1). -/
def tstamp (frames i : ℕ) : ℚ := (i : ℚ) / ((frames : ℚ) - 1)

/-- Lower bracketing frame index int(np.floor((frames-1)*time)) (src 159). -/
def noiseFrameLow (frames : ℕ) (time : ℚ) : ℕ :=
  (⌊((frames : ℚ) - 1) * time⌋).toNat

/-- Upper bracketing frame index int(np.ceil((frames-1)*time)) (src 159). -/
def noiseFrameHigh (frames : ℕ) (time : ℚ) : ℕ :=
  (⌈((frames : ℚ) - 1) * time⌉).toNat

/-- interpolateNoise (src 151-175), per cell: nr1 and nr2 are the rate and
raw noise views indexed by frame; when the bracketing time stamps differ by
less than 1e-15 the lower frame is returned from both views, otherwise both
views are blended exactly as in the source. -/
def interpolateNoise (nr1 nr2 : ℕ → ℚ) (frames : ℕ) (time : ℚ) : ℚ × ℚ :=
  if |tstamp frames (noiseFrameLow frames time) - tstamp frames (noiseFrameHigh frames time)|
      < 1 / 1000000000000000 then
    (nr1 (noiseFrameLow frames time), nr2 (noiseFrameLow frames time))
  else
    (|tstamp frames (noiseFrameLow frames time) - time| * nr1 (noiseFrameLow frames time)
        / |tstamp frames (noiseFrameHigh frames time) - tstamp frames (noiseFrameLow frames time)|
      + |tstamp frames (noiseFrameHigh frames time) - time| * nr1 (noiseFrameHigh frames time)
        / |tstamp frames (noiseFrameHigh frames time) - tstamp frames (noiseFrameLow frames time)|,
     |tstamp frames (noiseFrameLow frames time) - time| * nr2 (noiseFrameLow frames time)
        / |tstamp frames (noiseFrameHigh frames time) - tstamp frames (noiseFrameLow frames time)|
      + |tstamp frames (noiseFrameHigh frames time) - time| * nr2 (noiseFrameHigh frames time)
        / |tstamp frames (noiseFrameHigh frames time) - tstamp frames (noiseFrameLow frames time)|)

/-- C6: for a normalized time strictly between two distinct bracketing frame
times, interpolateNoise blends both the rate and the raw view with weight
|t1−τ|/|t2−t1| on the lower frame p1 and |t2−τ|/|t2−t1| on the upper frame
p2 — the non-complementary weight convention. -/
theorem C6_interpolation_weights (nr1 nr2 : ℕ → ℚ) (frames : ℕ) (τ : ℚ)
    (h2 : 2 ≤ frames) (hbig : frames ≤ 10 ^ 15)
    (hlt : tstamp frames (noiseFrameLow frames τ) < τ)
    (hgt : τ < tstamp frames (noiseFrameHigh frames τ)) :
    interpolateNoise nr1 nr2 frames τ =
      (|tstamp frames (noiseFrameLow frames τ) - τ|
          / |tstamp frames (noiseFrameHigh frames τ) - tstamp frames (noiseFrameLow frames τ)|
          * nr1 (noiseFrameLow frames τ)
        + |tstamp frames (noiseFrameHigh frames τ) - τ|
          / |tstamp frames (noiseFrameHigh frames τ) - tstamp frames (noiseFrameLow frames τ)|
          * nr1 (noiseFrameHigh frames τ),
       |tstamp frames (noiseFrameLow frames τ) - τ|
          / |tstamp frames (noiseFrameHigh frames τ) - tstamp frames (noiseFrameLow frames τ)|
          * nr2 (noiseFrameLow frames τ)
        + |tstamp frames (noiseFrameHigh frames τ) - τ|
          / |tstamp frames (noiseFrameHigh frames τ) - tstamp frames (noiseFrameLow frames τ)|
          * nr2 (noiseFrameHigh frames τ)) := by
  have hd : (0 : ℚ) < (frames : ℚ) - 1 := by
    have h2q : (2 : ℚ) ≤ (frames : ℚ) := by exact_mod_cast h2
    linarith
  have ht12 : tstamp frames (noiseFrameLow frames τ) < tstamp frames (noiseFrameHigh frames τ) :=
    hlt.trans hgt
  have hplt : noiseFrameLow frames τ < noiseFrameHigh frames τ := by
    have := ht12
    unfold tstamp at this
    exact_mod_cast (div_lt_div_right hd).mp this
  have hgap : (1 : ℚ) / ((frames : ℚ) - 1)
      ≤ tstamp frames (noiseFrameHigh frames τ) - tstamp frames (noiseFrameLow frames τ) := by
    unfold tstamp
    rw [div_sub_div_same]
    refine (div_le_div_right hd).mpr ?_
    have : (noiseFrameLow frames τ : ℚ) + 1 ≤ (noiseFrameHigh frames τ : ℚ) := by
      exact_mod_cast Nat.succ_le_of_lt hplt
    linarith
  have hdbig : (frames : ℚ) - 1 < 10 ^ 15 := by
    have : (frames : ℚ) ≤ 10 ^ 15 := by exact_mod_cast hbig
    linarith
  have hsmall : (1 : ℚ) / 1000000000000000 < 1 / ((frames : ℚ) - 1) := by
    have := one_div_lt_one_div_of_lt hd hdbig
    norm_num at this ⊢
    linarith
  have hguard : ¬ |tstamp frames (noiseFrameLow frames τ) - tstamp frames (noiseFrameHigh frames τ)|
      < 1 / 1000000000000000 := by
    rw [abs_sub_comm, abs_of_pos (by linarith : (0:ℚ) < tstamp frames (noiseFrameHigh frames τ) - tstamp frames (noiseFrameLow frames τ))]
    push_neg
    linarith
  unfold interpolateNoise
  rw [if_neg hguard]
  apply Prod.ext <;> simp <;> ring

/-- C7: temporal interpolation is idempotent at buffer-frame boundaries —
at the normalized time k/(frames−1) of a stored frame k, both the rate and
the raw view are returned unchanged. -/
theorem C7_interpolation_idempotent (nr1 nr2 : ℕ → ℚ) (frames k : ℕ)
    (h2 : 2 ≤ frames) (hk : k < frames) :
    interpolateNoise nr1 nr2 frames ((k : ℚ) / ((frames : ℚ) - 1)) = (nr1 k, nr2 k) := by
  have hd : (0 : ℚ) < (frames : ℚ) - 1 := by
    have h2q : (2 : ℚ) ≤ (frames : ℚ) := by exact_mod_cast h2
    linarith
  have hx : ((frames : ℚ) - 1) * ((k : ℚ) / ((frames : ℚ) - 1)) = (k : ℚ) := by
    field_simp
  have hlow : noiseFrameLow frames ((k : ℚ) / ((frames : ℚ) - 1)) = k := by
    unfold noiseFrameLow
    rw [hx, Int.floor_natCast, Int.toNat_natCast]
  have hhigh : noiseFrameHigh frames ((k : ℚ) / ((frames : ℚ) - 1)) = k := by
    unfold noiseFrameHigh
    rw [hx, Int.ceil_natCast, Int.toNat_natCast]
  unfold interpolateNoise
  rw [hlow, hhigh, if_pos (by rw [sub_self, abs_zero]; norm_num)]

/-- Two-frame buffer of the spec scenario: frame 0 holds 0.0, frame 1 holds 2.0. -/
def twoFrames : ℕ → ℚ := fun i => if i = 0 then 0 else 2

/-- Helper: the lower bracketing index of time 1/2 in a two-frame buffer is 0. -/
theorem noiseFrameLow_two_half : noiseFrameLow 2 (1 / 2) = 0 := by
  unfold noiseFrameLow
  rw [show (((2 : ℕ) : ℚ) - 1) * (1 / 2) = 1 / 2 by norm_num]
  rw [show ⌊(1 / 2 : ℚ)⌋ = 0 from Int.floor_eq_zero_iff.mpr (by norm_num [Set.mem_Ico])]
  rfl

/-- Helper: the upper bracketing index of time 1/2 in a two-frame buffer is 1. -/
theorem noiseFrameHigh_two_half : noiseFrameHigh 2 (1 / 2) = 1 := by
  unfold noiseFrameHigh
  rw [show (((2 : ℕ) : ℚ) - 1) * (1 / 2) = 1 / 2 by norm_num]
  rw [show ⌈(1 / 2 : ℚ)⌉ = 1 from Int.ceil_eq_iff.mpr (by norm_num)]
  rfl

/-- Witness for C6: the spec scenario — a two-frame buffer holding 0.0 and
2.0 sampled exactly halfway yields 1.0 from both views. -/
theorem C6_interpolation_weights_witness :
    interpolateNoise twoFrames twoFrames 2 (1 / 2) = (1, 1) := by
  have h := C6_interpolation_weights twoFrames twoFrames 2 (1 / 2) (by decide) (by decide)
    (by rw [noiseFrameLow_two_half]; norm_num [tstamp])
    (by rw [noiseFrameHigh_two_half]; norm_num [tstamp])
  rw [h, noiseFrameLow_two_half, noiseFrameHigh_two_half]
  norm_num [tstamp, twoFrames, abs_of_nonneg, abs_of_nonpos]

/-- Linear ramp frames used in the C7 witness. -/
def rampFrames : ℕ → ℚ := fun i => (i : ℚ)

/-- Witness for C7: a two-frame ramp sampled at frame 1's exact normalized
time returns frame 1 from both views. -/
theorem C7_interpolation_idempotent_witness :
    interpolateNoise rampFrames rampFrames 2 (((1 : ℕ) : ℚ) / (((2 : ℕ) : ℚ) - 1)) = (1, 1) := by
  have h := C7_interpolation_idempotent rampFrames rampFrames 2 1 (by decide) (by decide)
  rw [h]
  norm_num [rampFrames]

/-- List lookup at an integer index: the 0D noise trajectory is only ever
indexed at the nonnegative stage offsets below, so Python's negative-index
wraparound is not modelled; none encodes an out-of-range access. -/
def listGetZ (xs : List Cplx) (i : ℤ) : Option Cplx :=
  if 0 ≤ i then xs.get? i.toNat else none

/-- NCGL.__interpolate1D (src 108-113) over the complex 0D noise trajectory:
p1 = floor(t), p2 = ceil(t); if they agree return that entry, otherwise
blend with the source's weights |t-p1|/|p1-p2| and |t-p2|/|p1-p2|; a none
result encodes an out-of-range access (an IndexError in the source). -/
def interpolate1D (noise : List Cplx) (t : ℚ) : Option Cplx :=
  if ⌊t⌋ = ⌈t⌉ then listGetZ noise ⌊t⌋
  else
    match listGetZ noise ⌊t⌋, listGetZ noise ⌈t⌉ with
    | some n1, some n2 =>
        some ((|t - (⌊t⌋ : ℚ)| / |((⌊t⌋ : ℚ)) - ((⌈t⌉ : ℤ) : ℚ)|) • n1
          + (|t - ((⌈t⌉ : ℤ) : ℚ)| / |((⌊t⌋ : ℚ)) - ((⌈t⌉ : ℤ) : ℚ)|) • n2)
    | _, _ => none

/-- Stage offsets at which getNoisyChainedSingleReaction (src 131-143)
queries the 1D interpolator during step i: i, i+0.5 and i+1. -/
def noisyStageOffsets (i : ℕ) : List ℚ := [(i : ℚ), (i : ℚ) + 1 / 2, (i : ℚ) + 1]

/-- Helper: the interpolation succeeds whenever the floor index is
nonnegative and the ceil index is inside the list. -/
theorem interpolate1D_isSome (noise : List Cplx) (t : ℚ)
    (h0 : 0 ≤ ⌊t⌋) (hc : (⌈t⌉).toNat < noise.length) :
    (interpolate1D noise t).isSome := by
  have hfle : ⌊t⌋ ≤ ⌈t⌉ := Int.floor_le_ceil t
  have hf : (⌊t⌋).toNat < noise.length :=
    lt_of_le_of_lt (Int.toNat_le_toNat hfle) hc
  have h0c : 0 ≤ ⌈t⌉ := le_trans h0 hfle
  have g1 : listGetZ noise ⌊t⌋ = some (noise.get ⟨(⌊t⌋).toNat, hf⟩) := by
    unfold listGetZ
    rw [if_pos h0, List.get?_eq_get hf]
  have g2 : listGetZ noise ⌈t⌉ = some (noise.get ⟨(⌈t⌉).toNat, hc⟩) := by
    unfold listGetZ
    rw [if_pos h0c, List.get?_eq_get hc]
  unfold interpolate1D
  by_cases hfc : ⌊t⌋ = ⌈t⌉
  · rw [if_pos hfc, g1]
    rfl
  · rw [if_neg hfc, g1, g2]
    rfl

/-- C10: every noise lookup performed by getNoisyChainedSingleReaction stays
in bounds of the precomputed length-(nit+2) trajectory eta: at each step
i < nit, interpolation at every stage offset i, i+0.5, i+1 succeeds. -/
theorem C10_noise_lookups_in_bounds (nit i : ℕ) (eta : List Cplx)
    (hlen : eta.length = nit + 2) (hi : i < nit) :
    ((noisyStageOffsets i).all fun off => (interpolate1D eta off).isSome) = true := by
  have hfl0 : ⌊(i : ℚ)⌋ = (i : ℤ) := Int.floor_natCast i
  have hcl0 : ⌈(i : ℚ)⌉ = (i : ℤ) := Int.ceil_natCast i
  have hflh : ⌊(i : ℚ) + 1 / 2⌋ = (i : ℤ) := by
    rw [add_comm, Int.floor_add_nat, show ⌊(1 / 2 : ℚ)⌋ = 0 from
      Int.floor_eq_zero_iff.mpr (by norm_num [Set.mem_Ico])]
    simp
  have hclh : ⌈(i : ℚ) + 1 / 2⌉ = (i : ℤ) + 1 := by
    rw [add_comm, Int.ceil_add_nat, show ⌈(1 / 2 : ℚ)⌉ = 1 from
      Int.ceil_eq_iff.mpr (by norm_num)]
    ring
  have hfl1 : ⌊(i : ℚ) + 1⌋ = (i : ℤ) + 1 := by
    rw [show ((i : ℚ) + 1) = ((i + 1 : ℕ) : ℚ) by push_cast; ring, Int.floor_natCast]
    push_cast
    ring
  have hcl1 : ⌈(i : ℚ) + 1⌉ = (i : ℤ) + 1 := by
    rw [show ((i : ℚ) + 1) = ((i + 1 : ℕ) : ℚ) by push_cast; ring, Int.ceil_natCast]
    push_cast
    ring
  have b1 : (interpolate1D eta (i : ℚ)).isSome := by
    refine interpolate1D_isSome eta _ ?_ ?_
    · rw [hfl0]; exact Int.natCast_nonneg i
    · rw [hcl0, Int.toNat_natCast, hlen]; omega
  have b2 : (interpolate1D eta ((i : ℚ) + 1 / 2)).isSome := by
    refine interpolate1D_isSome eta _ ?_ ?_
    · rw [hflh]; exact Int.natCast_nonneg i
    · rw [hclh, show ((i : ℤ) + 1) = ((i + 1 : ℕ) : ℤ) by push_cast; ring,
        Int.toNat_natCast, hlen]
      omega
  have b3 : (interpolate1D eta ((i : ℚ) + 1)).isSome := by
    refine interpolate1D_isSome eta _ ?_ ?_
    · rw [hfl1]; positivity
    · rw [hcl1, show ((i : ℤ) + 1) = ((i + 1 : ℕ) : ℤ) by push_cast; ring,
        Int.toNat_natCast, hlen]
      omega
  simp only [noisyStageOffsets, List.all_cons, List.all_nil, b1, b2, b3]
  rfl

/-- Witness for C10: a concrete three-entry trajectory (nit = 1) with all
three stage lookups of step 0 succeeding. -/
theorem C10_noise_lookups_in_bounds_witness :
    ((noisyStageOffsets 0).all fun off =>
      (interpolate1D [((0 : ℚ), (0 : ℚ)), (0, 0), (0, 0)] off).isSome) = true :=
  C10_noise_lookups_in_bounds 1 0 [((0 : ℚ), (0 : ℚ)), (0, 0), (0, 0)] rfl (by decide)

/-- One evaluation of the six Fehlberg stages of solveRKF45 (src 210-218),
parametric in the state type and in the stage-derivative function f
(timeDerivatives, whose transforms and noise lookups are external to the
step logic): returns the pair (approach4, approach5).  Every tableau
constant is copied verbatim from the source, including the 2197/4101
coefficient of k4 in approach4. -/
def rkf45Approaches {σ : Type} [AddCommGroup σ] [Module ℚ σ]
    (f : σ → ℚ → σ) (step t : ℚ) (state : σ) : σ × σ :=
  let k1 := step • f state t
  let k2 := step • f (state + (1 / 4 : ℚ) • k1) (t + step / 4)
  let k3 := step • f (state + (3 / 32 : ℚ) • k1 + (9 / 32 : ℚ) • k2) (t + 3 * step / 8)
  let k4 := step • f (state + (1932 / 2197 : ℚ) • k1 + (-7200 / 2197 : ℚ) • k2
      + (7296 / 2197 : ℚ) • k3) (t + 12 * step / 13)
  let k5 := step • f (state + (439 / 216 : ℚ) • k1 + (-8 : ℚ) • k2 + (3680 / 513 : ℚ) • k3
      + (-845 / 4104 : ℚ) • k4) (t + step)
  let k6 := step • f (state + (-8 / 27 : ℚ) • k1 + (2 : ℚ) • k2 + (-3544 / 2565 : ℚ) • k3
      + (1859 / 4104 : ℚ) • k4 + (-11 / 40 : ℚ) • k5) (t + step / 2)
  (state + (25 / 216 : ℚ) • k1 + (1408 / 2565 : ℚ) • k3 + (2197 / 4101 : ℚ) • k4
      + (-1 / 5 : ℚ) • k5,
   state + (16 / 135 : ℚ) • k1 + (6656 / 12825 : ℚ) • k3 + (28561 / 56430 : ℚ) • k4
      + (-9 / 50 : ℚ) • k5 + (2 / 55 : ℚ) • k6)

/-- Step size after the at-most-once correction (src 221-222): rt4 models
the rational quarter power x ↦ x**0.25 of the source, a function mapping
(0,1) into (0,1). -/
def correctedStep (rt4 : ℚ → ℚ) (dt tol error : ℚ) : ℚ :=
  if tol < error then dt * rt4 (tol / (2 * error)) else dt

/-- Accepted state of one step (src 217-234): approach4, recomputed once
with the corrected step when the local error exceeded the tolerance. -/
def acceptedState {σ : Type} [AddCommGroup σ] [Module ℚ σ] (f : σ → ℚ → σ)
    (rt4 : ℚ → ℚ) (dt tol error t : ℚ) (state : σ) : σ :=
  if tol < error then (rkf45Approaches f (dt * rt4 (tol / (2 * error))) t state).1
  else (rkf45Approaches f dt t state).1

/-- The main loop of solveRKF45 (src 206-237), parametric in the
stage-derivative function f and in the local-error functional err, which
models np.max(np.abs(·)) applied to the difference of the two estimates.
n counts the remaining steps, i is the current step index, t the elapsed
time; returns the saved snapshots and the per-step elapsed times. -/
def rkf45Loop {σ : Type} [AddCommGroup σ] [Module ℚ σ] (f : σ → ℚ → σ)
    (err : σ → ℚ) (rt4 : ℚ → ℚ) (dt tol : ℚ) (stepsave : List ℕ) :
    ℕ → ℕ → σ → ℚ → List σ × List ℚ
  | 0, _, _, _ => ([], [])
  | n + 1, i, state, t =>
      let error := err ((rkf45Approaches f dt t state).1 - (rkf45Approaches f dt t state).2)
      let newState := acceptedState f rt4 dt tol error t state
      let t2 := t + correctedStep rt4 dt tol error
      let rest := rkf45Loop f err rt4 dt tol stepsave n (i + 1) newState t2
      (if i ∈ stepsave then newState :: rest.1 else rest.1, t2 :: rest.2)

/-- solveRKF45 (src 178-238): seeds the trace with the initial state and
runs ntimes steps starting at elapsed time 0; returns the pair
(snapshots, times).  The initial-condition and noise-buffer generation of
the source are external inputs here (state0, f, err). -/
def solveRKF45 {σ : Type} [AddCommGroup σ] [Module ℚ σ] (f : σ → ℚ → σ)
    (err : σ → ℚ) (rt4 : ℚ → ℚ) (state0 : σ) (dt tol : ℚ) (ntimes : ℕ)
    (stepsave : List ℕ) : List σ × List ℚ :=
  (state0 :: (rkf45Loop f err rt4 dt tol stepsave ntimes 0 state0 0).1,
   (rkf45Loop f err rt4 dt tol stepsave ntimes 0 state0 0).2)

/-- Helper: the loop emits one time entry per step and one snapshot per
saved index in the traversed index range. -/
theorem rkf45Loop_lengths {σ : Type} [AddCommGroup σ] [Module ℚ σ]
    (f : σ → ℚ → σ) (err : σ → ℚ) (rt4 : ℚ → ℚ) (dt tol : ℚ) (stepsave : List ℕ) :
    ∀ (n i : ℕ) (state : σ) (t : ℚ),
      (rkf45Loop f err rt4 dt tol stepsave n i state t).1.length
          = ((List.range' i n).filter (fun j => decide (j ∈ stepsave))).length
        ∧ (rkf45Loop f err rt4 dt tol stepsave n i state t).2.length = n := by
  intro n
  induction n with
  | zero => intro i state t; simp [rkf45Loop]
  | succ n ih =>
      intro i state t
      rw [rkf45Loop]
      simp only []
      obtain ⟨ih1, ih2⟩ := ih (i + 1)
        (acceptedState f rt4 dt tol
          (err ((rkf45Approaches f dt t state).1 - (rkf45Approaches f dt t state).2)) t state)
        (t + correctedStep rt4 dt tol
          (err ((rkf45Approaches f dt t state).1 - (rkf45Approaches f dt t state).2)))
      rw [List.range'_succ i n 1]
      by_cases hmem : i ∈ stepsave
      · rw [if_pos hmem, List.filter_cons_of_pos (by simpa using hmem)]
        exact ⟨by rw [List.length_cons, List.length_cons, ih1], by rw [List.length_cons, ih2]⟩
      · rw [if_neg hmem, List.filter_cons_of_neg (by simpa using hmem)]
        exact ⟨by rw [ih1], by rw [List.length_cons, ih2]⟩

/-- Zero right-hand side used to instantiate the solver concretely. -/
def zeroRHS : ℚ → ℚ → ℚ := fun _ _ => 0

/-- Zero local-error functional used to instantiate the solver concretely. -/
def zeroErr : ℚ → ℚ := fun _ => 0

/-- C2 (counterexample): in the spec scenario — ntimes = 10, save set
{0,5,9} — the snapshot sequence has length 4 (initial + 3 saves) but the
returned times sequence has one entry per step, length 10, so the two do
not have the same length. -/
theorem C2_times_length_counterexample :
    (solveRKF45 zeroRHS zeroErr id (0 : ℚ) 1 1 10 [0, 5, 9]).1.length = 4
      ∧ (solveRKF45 zeroRHS zeroErr id (0 : ℚ) 1 1 10 [0, 5, 9]).2.length = 10
      ∧ (solveRKF45 zeroRHS zeroErr id (0 : ℚ) 1 1 10 [0, 5, 9]).1.length
          ≠ (solveRKF45 zeroRHS zeroErr id (0 : ℚ) 1 1 10 [0, 5, 9]).2.length := by
  obtain ⟨h1, h2⟩ := rkf45Loop_lengths zeroRHS zeroErr id 1 1 [0, 5, 9] 10 0 (0 : ℚ) 0
  have e1 : (solveRKF45 zeroRHS zeroErr id (0 : ℚ) 1 1 10 [0, 5, 9]).1.length = 4 := by
    unfold solveRKF45
    rw [List.length_cons, h1]
    decide
  have e2 : (solveRKF45 zeroRHS zeroErr id (0 : ℚ) 1 1 10 [0, 5, 9]).2.length = 10 := by
    unfold solveRKF45
    exact h2
  exact ⟨e1, e2, by rw [e1, e2]; decide⟩

/-- C2 (amended): for every derivative function, error functional, step
corrector, initial state and parameters, the snapshot sequence is exactly
the initial state plus one snapshot per step whose index is in the save
set, while the times sequence has exactly one entry per step — length
ntimes, in general different from the snapshot count. -/
theorem C2_trace_lengths {σ : Type} [AddCommGroup σ] [Module ℚ σ]
    (f : σ → ℚ → σ) (err : σ → ℚ) (rt4 : ℚ → ℚ) (state0 : σ) (dt tol : ℚ)
    (ntimes : ℕ) (stepsave : List ℕ) :
    (solveRKF45 f err rt4 state0 dt tol ntimes stepsave).1.length
        = 1 + ((List.range ntimes).filter (fun j => decide (j ∈ stepsave))).length
      ∧ (solveRKF45 f err rt4 state0 dt tol ntimes stepsave).2.length = ntimes := by
  obtain ⟨h1, h2⟩ := rkf45Loop_lengths f err rt4 dt tol stepsave ntimes 0 state0 0
  constructor
  · unfold solveRKF45
    rw [List.length_cons, h1, List.range_eq_range' ntimes]
    omega
  · unfold solveRKF45
    exact h2

/-- Helper: under positive dt and tolerance, and a quarter-power function
mapping (0,1) into (0,1), the possibly corrected step is positive and never
larger than dt. -/
theorem correctedStep_pos_le (rt4 : ℚ → ℚ) (dt tol error : ℚ) (hdt : 0 < dt)
    (htol : 0 < tol) (hrt4 : ∀ x : ℚ, 0 < x → x < 1 → 0 < rt4 x ∧ rt4 x < 1) :
    0 < correctedStep rt4 dt tol error ∧ correctedStep rt4 dt tol error ≤ dt := by
  unfold correctedStep
  by_cases hc : tol < error
  · rw [if_pos hc]
    have herr : 0 < error := htol.trans hc
    have h1 : 0 < tol / (2 * error) := div_pos htol (by linarith)
    have h2 : tol / (2 * error) < 1 := (div_lt_one (by linarith)).mpr (by linarith)
    obtain ⟨hp, hl⟩ := hrt4 _ h1 h2
    exact ⟨mul_pos hdt hp, (mul_lt_of_lt_one_right hdt hl).le⟩
  · rw [if_neg hc]
    exact ⟨hdt, le_refl dt⟩

/-- Helper: every time the loop emits is strictly above the starting time,
bounded by start + n·dt, and the emitted list is strictly increasing. -/
theorem rkf45Loop_times_mono {σ : Type} [AddCommGroup σ] [Module ℚ σ]
    (f : σ → ℚ → σ) (err : σ → ℚ) (rt4 : ℚ → ℚ) (dt tol : ℚ) (stepsave : List ℕ)
    (hdt : 0 < dt) (htol : 0 < tol)
    (hrt4 : ∀ x : ℚ, 0 < x → x < 1 → 0 < rt4 x ∧ rt4 x < 1) :
    ∀ (n i : ℕ) (state : σ) (t : ℚ),
      List.Chain' (· < ·) (rkf45Loop f err rt4 dt tol stepsave n i state t).2
        ∧ ∀ x ∈ (rkf45Loop f err rt4 dt tol stepsave n i state t).2,
            t < x ∧ x ≤ t + (n : ℚ) * dt := by
  intro n
  induction n with
  | zero => intro i state t; simp [rkf45Loop]
  | succ n ih =>
      intro i state t
      rw [rkf45Loop]
      simp only []
      set e := err ((rkf45Approaches f dt t state).1 - (rkf45Approaches f dt t state).2) with he
      obtain ⟨hsp, hsl⟩ := correctedStep_pos_le rt4 dt tol e hdt htol hrt4
      obtain ⟨ihc, ihm⟩ := ih (i + 1) (acceptedState f rt4 dt tol e t state)
        (t + correctedStep rt4 dt tol e)
      have hn0 : (0 : ℚ) ≤ (n : ℚ) := Nat.cast_nonneg n
      constructor
      · refine List.chain'_cons'.mpr ⟨?_, ihc⟩
        intro y hy
        exact (ihm y (List.mem_of_mem_head? hy)).1
      · intro x hx
        rcases List.mem_cons.mp hx with hx0 | hx1
        · subst hx0
          refine ⟨by linarith, ?_⟩
          push_cast
          nlinarith
        · obtain ⟨hx2, hx3⟩ := ihm x hx1
          refine ⟨by linarith, ?_⟩
          push_cast
          nlinarith

/-- C8: for positive dt and tolerance, with the quarter-power function
mapping (0,1) into (0,1) — as the source's x**0.25 does — the elapsed times
returned by solveRKF45 are strictly increasing, and every entry, in
particular the final one, is at most ntimes·dt: the at-most-once step
correction only ever shrinks the step. -/
theorem C8_times_monotone_bounded {σ : Type} [AddCommGroup σ] [Module ℚ σ]
    (f : σ → ℚ → σ) (err : σ → ℚ) (rt4 : ℚ → ℚ) (state0 : σ) (dt tol : ℚ)
    (ntimes : ℕ) (stepsave : List ℕ) (hdt : 0 < dt) (htol : 0 < tol)
    (hrt4 : ∀ x : ℚ, 0 < x → x < 1 → 0 < rt4 x ∧ rt4 x < 1) (hn : 1 ≤ ntimes) :
    List.Chain' (· < ·) (solveRKF45 f err rt4 state0 dt tol ntimes stepsave).2
      ∧ ∀ x ∈ (solveRKF45 f err rt4 state0 dt tol ntimes stepsave).2,
          x ≤ (ntimes : ℚ) * dt := by
  obtain ⟨hc, hm⟩ := rkf45Loop_times_mono f err rt4 dt tol stepsave hdt htol hrt4
    ntimes 0 state0 0
  refine ⟨hc, ?_⟩
  intro x hx
  have := (hm x hx).2
  linarith

/-- Witness for C8: the concrete scalar instantiation dt = 1, tol = 1,
one step, zero right-hand side — the single returned time is strictly
positive-chained (trivially) and bounded by ntimes·dt. -/
theorem C8_times_monotone_bounded_witness :
    (0 : ℚ) < 1 ∧
      (List.Chain' (· < ·) (solveRKF45 zeroRHS zeroErr id (0 : ℚ) 1 1 1 []).2
        ∧ ∀ x ∈ (solveRKF45 zeroRHS zeroErr id (0 : ℚ) 1 1 1 []).2,
            x ≤ ((1 : ℕ) : ℚ) * 1) :=
  ⟨one_pos,
    C8_times_monotone_bounded zeroRHS zeroErr id (0 : ℚ) 1 1 1 [] one_pos one_pos
      (fun x hx hx1 => ⟨hx, hx1⟩) (le_refl 1)⟩

/-- The 4th-order combination with the reference Fehlberg coefficient
2197/4104 on k4, exactly as the claim and the published tableau state it;
identical to the first component of rkf45Approaches except for that single
coefficient. -/
def rkf45Approach4Fehlberg {σ : Type} [AddCommGroup σ] [Module ℚ σ]
    (f : σ → ℚ → σ) (step t : ℚ) (state : σ) : σ :=
  let k1 := step • f state t
  let k2 := step • f (state + (1 / 4 : ℚ) • k1) (t + step / 4)
  let k3 := step • f (state + (3 / 32 : ℚ) • k1 + (9 / 32 : ℚ) • k2) (t + 3 * step / 8)
  let k4 := step • f (state + (1932 / 2197 : ℚ) • k1 + (-7200 / 2197 : ℚ) • k2
      + (7296 / 2197 : ℚ) • k3) (t + 12 * step / 13)
  let k5 := step • f (state + (439 / 216 : ℚ) • k1 + (-8 : ℚ) • k2 + (3680 / 513 : ℚ) • k3
      + (-845 / 4104 : ℚ) • k4) (t + step)
  state + (25 / 216 : ℚ) • k1 + (1408 / 2565 : ℚ) • k3 + (2197 / 4104 : ℚ) • k4
      + (-1 / 5 : ℚ) • k5

/-- C9 (code bug): with the constant unit derivative, unit step and zero
initial state, the source's 4th-order combination differs from the
reference Fehlberg combination — the code multiplies k4 by 2197/4101 where
the Fehlberg tableau requires 2197/4104. -/
theorem C9_tableau_coefficient_bug :
    (rkf45Approaches (fun _ _ => (1 : ℚ)) 1 0 0).1
      ≠ rkf45Approach4Fehlberg (fun _ _ => (1 : ℚ)) 1 0 0 := by
  norm_num [rkf45Approaches, rkf45Approach4Fehlberg, smul_eq_mul]
